import Mathlib

/-!
Verification development for the duplicate-track-finder program
(`duplicate_track_finder.py`).  The Python source is shallowly embedded:
pure string-processing functions become Lean functions over `List Char`,
the stateful grouping pass becomes a worklist recursion, the filesystem
and the tag-reading library become explicit environments, and Python
`dict` / `set` values become association lists / canonically sorted lists.

Modelling conventions, used throughout:
* Python `str` is modelled through its list of characters (`String.data`);
  all text appearing in this development is ASCII except for the single
  characters noted at their use sites, and every character used is its own
  NFKC normal form, so Unicode NFKC normalization is modelled as the
  identity map.
* Python `\s` (and `str.strip`) is modelled on the ASCII whitespace
  characters; the inputs of this program contain no exotic Unicode spaces
  and no newline characters, so the `$` end-anchor subtleties of Python
  regexes do not arise.
* Python `str.lower` is modelled on ASCII letters; every non-ASCII
  character handled here is unchanged by lowercasing or is discarded by
  the ASCII transliteration step immediately after.
* A Python `set` of strings is modelled as its canonical form: the
  strictly sorted (by code points, as Python compares strings) duplicate
  free list of its elements, so `sorted(s)` is the list itself.
* Regular-expression substitutions are modelled by explicit left-to-right
  scanners implementing the leftmost, non-overlapping match semantics of
  `re.sub`; each scanner carries a fuel argument (always called with the
  input length, which bounds the number of scanning steps) so that all
  definitions are structurally recursive and kernel-evaluable.
-/

/-! ## Character helpers -/

/-- ASCII whitespace, the characters matched by Python `\s` on this
program's data: space, tab, newline, carriage return, vertical tab,
form feed. -/
def isPySpace (c : Char) : Bool :=
  c = ' ' || c = '\t' || c = '\n' || c = '\r' || c = '\x0B' || c = '\x0C'

/-- ASCII lowercasing, the effect of Python `str.lower` on the characters
this program processes. -/
def lowerAscii (c : Char) : Char :=
  if 'A' ≤ c ∧ c ≤ 'Z' then Char.ofNat (c.toNat + 32) else c

/-- Map Python `str.lower` over a character list. -/
def pyLower (l : List Char) : List Char := l.map lowerAscii

/-- Unicode NFKC normalization (`unicodedata.normalize('NFKC', s)`).
Every character appearing in this development is its own NFKC normal
form, so the map is the identity. -/
def nfkc (l : List Char) : List Char := l

/-- Best-effort ASCII transliteration,
`s.encode('ascii', 'ignore').decode('ascii')`: characters outside the
ASCII range are dropped. -/
def asciiIgnore (l : List Char) : List Char := l.filter (fun c => c.toNat ≤ 127)

/-- Python `str.strip()`: drop leading and trailing whitespace. -/
def pyStrip (l : List Char) : List Char :=
  ((l.dropWhile isPySpace).reverse.dropWhile isPySpace).reverse

/-- Python `str.strip(',')`: drop leading and trailing commas. -/
def stripEndCommas (l : List Char) : List Char :=
  ((l.dropWhile (· = ',')).reverse.dropWhile (· = ',')).reverse

/-- Strict code-point lexicographic order on character lists, the order
Python uses to compare and sort strings. -/
def lexLtChars : List Char → List Char → Bool
  | [], [] => false
  | [], _ :: _ => true
  | _ :: _, [] => false
  | a :: as, b :: bs => a < b || (a = b && lexLtChars as bs)

/-- Python string comparison `a < b`. -/
def strLt (a b : String) : Bool := lexLtChars a.data b.data

/-! ## The Python set-of-strings model -/

/-- Insert into a canonically sorted duplicate-free list, the model of
`set.add` for Python sets of strings. -/
def setInsert (a : String) : List String → List String
  | [] => [a]
  | b :: t => if a = b then b :: t else if strLt a b then a :: b :: t else b :: setInsert a t

/-- Python set intersection restricted to the observation made by the
program (`len(s & t) > 0` and display): the elements of `s` also in `t`. -/
def setInter (s t : List String) : List String := s.filter (fun a => t.contains a)

/-- Python `s.issubset(t)`. -/
def setSubset (s t : List String) : Bool := s.all (fun a => t.contains a)

/-! ## Regex substitution scanners

Each `...Go` function is one `re.sub` call from the source, written as a
left-to-right scanner with the leftmost, non-overlapping match semantics
of `re.sub`.  The fuel argument is always instantiated with the length of
the scanned list, which bounds the number of scanning steps because every
step consumes at least one character. -/

/-- Trailing delimiter noise removal, `re.sub(r'[;,\s]+$', '', s)`. -/
def dropEndDelims (l : List Char) : List Char :=
  (l.reverse.dropWhile (fun c => c = ';' || c = ',' || isPySpace c)).reverse

/-- The symbol delimiters of `re.sub(r'\s*[&+/\\|]\s*', ',', s)`. -/
def isSymDelim (c : Char) : Bool :=
  c = '&' || c = '+' || c = '/' || c = '\\' || c = '|'

/-- Scanner for `re.sub(r'\s*D\s*', ',', s)` where `D` is a one-character
class given by `isDel`: a delimiter character together with the
whitespace around it becomes a single comma. -/
def subDelimWsGo (isDel : Char → Bool) : Nat → List Char → List Char
  | 0, _ => []
  | _, [] => []
  | fuel + 1, c :: cs =>
    if isDel c then ',' :: subDelimWsGo isDel fuel (cs.dropWhile isPySpace)
    else if isPySpace c then
      let ws := (c :: cs).takeWhile isPySpace
      let rest := (c :: cs).dropWhile isPySpace
      match rest with
      | [] => ws
      | d :: ds =>
        if isDel d then ',' :: subDelimWsGo isDel fuel (ds.dropWhile isPySpace)
        else ws ++ subDelimWsGo isDel fuel (d :: ds)
    else c :: subDelimWsGo isDel fuel cs

/-- Symbol delimiter unification, `re.sub(r'\s*[&+/\\|]\s*', ',', s)`. -/
def subSymbolDelims (l : List Char) : List Char := subDelimWsGo isSymDelim l.length l

/-- Whitespace-around-comma cleanup, `re.sub(r'\s*,\s*', ',', s)`. -/
def subCommaWs (l : List Char) : List Char := subDelimWsGo (· = ',') l.length l

/-- Comma-run collapse, `re.sub(r',+', ',', s)`. -/
def collapseCommasGo : Nat → List Char → List Char
  | 0, _ => []
  | _, [] => []
  | fuel + 1, c :: cs =>
    if c = ',' then ',' :: collapseCommasGo fuel (cs.dropWhile (· = ','))
    else c :: collapseCommasGo fuel cs

/-- Comma-run collapse, `re.sub(r',+', ',', s)`. -/
def collapseCommas (l : List Char) : List Char := collapseCommasGo l.length l

/-- Whitespace-run collapse, `re.sub(r'\s+', ' ', s)`. -/
def squeezeWsGo : Nat → List Char → List Char
  | 0, _ => []
  | _, [] => []
  | fuel + 1, c :: cs =>
    if isPySpace c then ' ' :: squeezeWsGo fuel (cs.dropWhile isPySpace)
    else c :: squeezeWsGo fuel cs

/-- Whitespace-run collapse, `re.sub(r'\s+', ' ', s)`. -/
def squeezeWs (l : List Char) : List Char := squeezeWsGo l.length l

/-- Case-insensitive literal match: if the lowercase pattern `pat` is a
prefix of the input (compared through `lowerAscii`, as the `re.IGNORECASE`
flag compares), return the remainder of the input. -/
def matchCI : List Char → List Char → Option (List Char)
  | [], l => some l
  | _ :: _, [] => none
  | p :: ps, c :: cs => if lowerAscii c = p then matchCI ps cs else none

/-- Require the one-or-more whitespace `\s+` that closes a delimiter-word
match, and consume it greedily (the pattern ends there, so the greedy
match is never backtracked). -/
def requireWs (l : List Char) : Option (List Char) :=
  match l with
  | [] => none
  | c :: _ => if isPySpace c then some (l.dropWhile isPySpace) else none

/-- One alternative `w\.?` (or plain `w`) of a word-delimiter pattern,
followed by the closing `\s+`.  The optional dot is matched greedily;
when taking the dot makes the following `\s+` fail, the backtracked
alternative without the dot fails as well, since the dot itself is not
whitespace. -/
def tryWordAlt (w : List Char) (optDot : Bool) (l : List Char) : Option (List Char) :=
  match matchCI w l with
  | none => none
  | some r =>
    match r with
    | '.' :: r2 => if optDot then requireWs r2 else requireWs r
    | _ => requireWs r

/-- The ordered alternation `(and|feat\.?|ft\.?|vs\.?|versus|x|with)\s+`
of the word-delimiter substitution, tried at a position just after the
leading `\s+`. -/
def wordDelimTail (l : List Char) : Option (List Char) :=
  (tryWordAlt "and".data false l).orElse fun _ =>
  (tryWordAlt "feat".data true l).orElse fun _ =>
  (tryWordAlt "ft".data true l).orElse fun _ =>
  (tryWordAlt "vs".data true l).orElse fun _ =>
  (tryWordAlt "versus".data false l).orElse fun _ =>
  (tryWordAlt "x".data false l).orElse fun _ =>
  tryWordAlt "with".data false l

/-- Scanner for the word-delimiter unification
`re.sub(r'\s+(and|feat\.?|ft\.?|vs\.?|versus|x|with)\s+', ',', s)`. -/
def subWordDelimsGo : Nat → List Char → List Char
  | 0, _ => []
  | _, [] => []
  | fuel + 1, c :: cs =>
    if isPySpace c then
      let ws := (c :: cs).takeWhile isPySpace
      let rest := (c :: cs).dropWhile isPySpace
      match wordDelimTail rest with
      | some rem => ',' :: subWordDelimsGo fuel rem
      | none => ws ++ subWordDelimsGo fuel rest
    else c :: subWordDelimsGo fuel cs

/-- Word-delimiter unification,
`re.sub(r'\s+(and|feat\.?|ft\.?|vs\.?|versus|x|with)\s+', ',', s)`. -/
def subWordDelims (l : List Char) : List Char := subWordDelimsGo l.length l

/-- Leading featuring-credit removal,
`re.sub(r'^(feat\.?|ft\.?|featuring)\s+', '', s)`: anchored at the start,
so at most one match, whose remainder replaces the string. -/
def stripLeadFeat (l : List Char) : List Char :=
  match (tryWordAlt "feat".data true l).orElse fun _ =>
        (tryWordAlt "ft".data true l).orElse fun _ =>
        tryWordAlt "featuring".data false l with
  | some rem => rem
  | none => l

/-- Whether one of the alternatives `feat\.?|ft\.?|featuring` matches at
this position when followed by `.*$`: since `.*$` accepts anything, this
is exactly having `feat` or `ft` as a (case-insensitive) prefix. -/
def startsFeat (l : List Char) : Bool :=
  (matchCI "feat".data l).isSome || (matchCI "ft".data l).isSome

/-- Scanner for the trailing featuring-credit removal
`re.sub(r'\s+(feat\.?|ft\.?|featuring).*$', '', s)`: the string is
truncated at the first whitespace run followed by a featuring word. -/
def stripTrailFeatGo : Nat → List Char → List Char
  | 0, _ => []
  | _, [] => []
  | fuel + 1, c :: cs =>
    if isPySpace c then
      let ws := (c :: cs).takeWhile isPySpace
      let rest := (c :: cs).dropWhile isPySpace
      if startsFeat rest then []
      else ws ++ stripTrailFeatGo fuel rest
    else c :: stripTrailFeatGo fuel cs

/-- Trailing featuring-credit removal,
`re.sub(r'\s+(feat\.?|ft\.?|featuring).*$', '', s)`. -/
def stripTrailFeat (l : List Char) : List Char := stripTrailFeatGo l.length l

/-- Find the first closing parenthesis and return the remainder after it:
the `[^)]*\)` part of the parenthetical-suffix pattern (`[^)]*` matches
any character except a closing parenthesis). -/
def afterCloserParen : List Char → Option (List Char)
  | [] => none
  | c :: cs => if c = ')' then some cs else afterCloserParen cs

/-- Scanner for the parenthetical-suffix removal
`re.sub(r'\s*\([^)]*\)', '', s)`. -/
def stripParensGo : Nat → List Char → List Char
  | 0, _ => []
  | _, [] => []
  | fuel + 1, c :: cs =>
    if c = '(' then
      match afterCloserParen cs with
      | some rest => stripParensGo fuel rest
      | none => c :: stripParensGo fuel cs
    else if isPySpace c then
      let ws := (c :: cs).takeWhile isPySpace
      let rest := (c :: cs).dropWhile isPySpace
      match rest with
      | '(' :: rs =>
        match afterCloserParen rs with
        | some rest2 => stripParensGo fuel rest2
        | none => ws ++ stripParensGo fuel rest
      | _ => ws ++ stripParensGo fuel rest
    else c :: stripParensGo fuel cs

/-- Parenthetical-suffix removal, `re.sub(r'\s*\([^)]*\)', '', s)`. -/
def stripParens (l : List Char) : List Char := stripParensGo l.length l

/-- The quote characters removed by `re.sub(r'["""\'\'`]', '', s)`; the
character class of the source contains exactly the double quote, the
apostrophe and the backtick (each listed more than once). -/
def isQuoteChar (c : Char) : Bool :=
  c = Char.ofNat 34 || c = Char.ofNat 39 || c = Char.ofNat 96

/-- Quote removal, `re.sub(r'["""\'\'`]', '', s)`. -/
def removeQuotes (l : List Char) : List Char := l.filter (fun c => !isQuoteChar c)

/-- Python `s.split(sep)` for a one-character separator, keeping empty
pieces. -/
def splitChGo (sep : Char) : List Char → List Char → List (List Char)
  | cur, [] => [cur.reverse]
  | cur, c :: cs =>
    if c = sep then cur.reverse :: splitChGo sep [] cs else splitChGo sep (c :: cur) cs

/-- Python `s.split(',')`. -/
def splitOnComma (l : List Char) : List (List Char) := splitChGo ',' [] l

/-! ## MetadataHandler.normalize_artists (source lines 103-178) -/

/-- Per-piece cleaning of one comma-separated artist, the loop body of
`normalize_artists` (source lines 150-173): strip, drop empty, strip
leading and trailing featuring credits, parenthetical suffixes and
quotes, remove periods, turn hyphens into spaces, collapse whitespace,
and add the surviving name to the set. -/
def addArtistPiece (acc : List String) (piece : List Char) : List String :=
  let a := pyStrip piece
  if a.isEmpty then acc
  else
    let a := stripLeadFeat a
    let a := stripTrailFeat a
    let a := stripParens a
    let a := pyStrip (squeezeWs a)
    let a := removeQuotes a
    let a := (a.filter (· ≠ '.')).map (fun c => if c = '-' then ' ' else c)
    let a := pyStrip (squeezeWs a)
    if a.isEmpty then acc else setInsert (String.mk a) acc

/-- `MetadataHandler.normalize_artists`: normalize a contributing-artists
string to a set of artist names (returned in canonical sorted form). -/
def normalize_artists (artist_str : String) : List String :=
  if artist_str = "" then []
  else
    let cleaned := pyStrip (pyLower artist_str.data)
    let cleaned := asciiIgnore (nfkc cleaned)
    let cleaned := dropEndDelims cleaned
    let cleaned := cleaned.map (fun c => if c = ';' then ',' else c)
    let cleaned := subSymbolDelims cleaned
    let cleaned := subWordDelims cleaned
    let cleaned := collapseCommas cleaned
    let cleaned := subCommaWs cleaned
    let cleaned := pyStrip (stripEndCommas cleaned)
    if cleaned.isEmpty then []
    else (splitOnComma cleaned).foldl addArtistPiece []

/-! ## extract_base_title (source lines 465-481, local to group_by_metadata) -/

/-- Find the first closing parenthesis or bracket (`.*?[\)\]]` is lazy,
and `.` does not cross a newline) and return the remainder after it. -/
def afterCloserBracket : List Char → Option (List Char)
  | [] => none
  | c :: cs =>
    if c = ')' || c = ']' then some cs
    else if c = '\n' then none
    else afterCloserBracket cs

/-- Scanner for the version-annotation removal
`re.sub(r'\s*[\(\[].*?[\)\]]', '', title)`. -/
def stripBracketsGo : Nat → List Char → List Char
  | 0, _ => []
  | _, [] => []
  | fuel + 1, c :: cs =>
    if c = '(' || c = '[' then
      match afterCloserBracket cs with
      | some rest => stripBracketsGo fuel rest
      | none => c :: stripBracketsGo fuel cs
    else if isPySpace c then
      let ws := (c :: cs).takeWhile isPySpace
      let rest := (c :: cs).dropWhile isPySpace
      match rest with
      | d :: rs =>
        if d = '(' || d = '[' then
          match afterCloserBracket rs with
          | some rest2 => stripBracketsGo fuel rest2
          | none => ws ++ stripBracketsGo fuel rest
        else ws ++ stripBracketsGo fuel rest
      | [] => ws
    else c :: stripBracketsGo fuel cs

/-- Version-annotation removal, `re.sub(r'\s*[\(\[].*?[\)\]]', '', title)`. -/
def stripBrackets (l : List Char) : List Char := stripBracketsGo l.length l

/-- The dash characters of the trailing-version pattern: hyphen, en dash,
em dash. -/
def isDashChar (c : Char) : Bool :=
  c = '-' || c = Char.ofNat 8211 || c = Char.ofNat 8212

/-- The version words of the trailing-version pattern. -/
def versionWords : List (List Char) :=
  ["extended".data, "radio".data, "club".data, "original".data, "vocal".data,
   "instrumental".data, "acoustic".data, "remix".data, "mix".data, "edit".data,
   "version".data, "dub".data]

/-- Whether the trailing-version pattern
`\s*[-–—]\s*(extended|radio|...|dub).*$` matches at this position:
optional whitespace, a dash, optional whitespace, then a version word
(everything after is swallowed by `.*$`). -/
def dashVersionHere (l : List Char) : Bool :=
  match l.dropWhile isPySpace with
  | d :: rs =>
    if isDashChar d then
      let r2 := rs.dropWhile isPySpace
      versionWords.any (fun w => (matchCI w r2).isSome)
    else false
  | [] => false

/-- Scanner for the trailing-version removal: the title is truncated at
the first position where the dash-version pattern matches. -/
def stripDashVersionGo : Nat → List Char → List Char
  | 0, _ => []
  | _, [] => []
  | fuel + 1, c :: cs =>
    if dashVersionHere (c :: cs) then []
    else c :: stripDashVersionGo fuel cs

/-- Trailing-version removal,
`re.sub(r'\s*[-–—]\s*(extended|...|dub).*$', '', title)`. -/
def stripDashVersion (l : List Char) : List Char := stripDashVersionGo l.length l

/-- The base-title extractor `extract_base_title` defined inside
`DuplicateDetector.group_by_metadata`: lowercase and trim, remove
parenthesized or bracketed segments, remove a trailing dash-introduced
version suffix, collapse whitespace. -/
def extract_base_title (title : String) : String :=
  if title = "" then ""
  else
    let t := pyStrip (pyLower title.data)
    let t := stripBrackets t
    let t := stripDashVersion t
    String.mk (pyStrip (squeezeWs t))

/-! ## Small Python helpers used by the embedded components -/

/-- Python `str.title()` on the lowercase base titles this program
produces: the first character of each run of ASCII letters is
uppercased, the others lowercased (the cased characters occurring here
are ASCII letters). -/
def pyTitleGo : Bool → List Char → List Char
  | _, [] => []
  | prevAlpha, c :: cs =>
    if c.isAlpha then
      (if prevAlpha then lowerAscii c else c.toUpper) :: pyTitleGo true cs
    else c :: pyTitleGo false cs

/-- Python `str.title()`. -/
def pyTitle (l : List Char) : List Char := pyTitleGo false l

/-- Python `", ".join(xs)`, built directly on character lists. -/
def joinCommaSpace : List String → List Char
  | [] => []
  | [s] => s.data
  | s :: t => s.data ++ ',' :: ' ' :: joinCommaSpace t

/-- Python `pathlib.Path(p).name` for POSIX-style paths: the component
after the last slash. -/
def pathName (p : String) : String :=
  String.mk (p.data.foldl (fun acc c => if c = '/' then [] else acc ++ [c]) [])

/-- Index of the last dot in a name, if any. -/
def lastDotIdx (l : List Char) : Option Nat :=
  (l.enum.filter (fun ic => ic.2 = '.')).getLast?.map (·.1)

/-- Python `pathlib.Path(p).suffix`: the part of the name from its last
dot, empty when the last dot is the first or absent character of the
name. -/
def pathSuffix (p : String) : String :=
  let name := (pathName p).data
  match lastDotIdx name with
  | some i => if 0 < i ∧ i < name.length - 1 then String.mk (name.drop i) else ""
  | none => ""

/-- `MetadataHandler.get_audio_quality_indicator` (source lines 51-56):
classify by file extension, with the fixed lossless extension set. -/
def get_audio_quality_indicator (p : String) : String :=
  let ext := String.mk (pyLower (pathSuffix p).data)
  if ext = ".flac" || ext = ".wav" || ext = ".aiff" || ext = ".dsd" || ext = ".ape" then
    "Lossless"
  else "Lossy"

/-- Python `int(s)` on the decimal forms this program renders: optional
surrounding whitespace, an optional sign, then one or more digits.
(Python also accepts digit-group underscores and non-ASCII digits, which
this program never produces.)  A parse failure is the `ValueError` case. -/
def pyInt? (s : String) : Option Int :=
  let l := pyStrip s.data
  let core : List Char × Int :=
    match l with
    | '-' :: t => (t, -1)
    | '+' :: t => (t, 1)
    | t => (t, 1)
  match core with
  | (digits, sign) =>
    if digits.isEmpty || !(digits.all (·.isDigit)) then none
    else some (sign * (digits.foldl (fun n c => n * 10 + ((c.toNat - 48 : Nat) : Int)) 0))

/-- `AudioDuplicateDetectorUI.duration_to_seconds` (source lines
994-1005): parse `M:SS` or `H:MM:SS`, returning 0 on any failure. -/
def duration_to_seconds (duration_str : String) : Int :=
  match (splitChGo ':' [] duration_str.data).map (fun p => pyInt? (String.mk p)) with
  | [some a, some b] => a * 60 + b
  | [some a, some b, some c] => a * 3600 + b * 60 + c
  | _ => 0

/-- Round `num / den` (for `den > 0`) half to even, the rounding of
Python `round` applied to the exact quotient; the float quotients this
program rounds are close enough to exact for the model. -/
def pyRoundDiv (num den : Int) : Int :=
  let q := num.fdiv den
  let r := num.fmod den
  if 2 * r < den then q
  else if den < 2 * r then q + 1
  else if q % 2 = 0 then q else q + 1

/-- Format seconds as Python `f"{minutes}:{seconds:02d}"` with
`minutes = duration // 60` and `seconds = duration % 60`. -/
def fmtDuration (d : Int) : String :=
  let minutes := d.fdiv 60
  let seconds := d.fmod 60
  toString minutes ++ ":" ++ (if seconds < 10 then "0" else "") ++ toString seconds

/-! ## The metadata record

One Python metadata dictionary from `MetadataHandler.extract_file_metadata`
(source lines 244-335).  A field value `none` models an absent dictionary
key, matching the `meta.get(key, default)` accesses of the callers; the
keys of the initial dictionary literal are present (`some`) from the
start, the tag-derived keys only appear when tag decoding succeeds. -/
structure Metadata where
  file_path : String := ""
  filename : Option String := none
  size_mb : Option Int := none
  size_bytes : Option Int := none
  duration_formatted : Option String := none
  quality : Option String := none
  modified_date : Option String := none
  created_date : Option String := none
  title : Option String := none
  contributing_artists : Option String := none
  album_artist : Option String := none
  raw_artists : Option String := none
  normalized_artists_debug : Option String := none
  success : Bool := false
  album : Option String := none
  year : Option String := none
  genre : Option String := none
  duration : Option Int := none
  bitrate : Option Int := none
  samplerate : Option Int := none
  channels : Option Int := none
  artist : Option String := none
  error : Option String := none
  file_error : Option String := none
  metadata_error : Option String := none
  modified : Option Int := none
  created : Option Int := none
deriving DecidableEq

/-- Result of a successful `os.stat` call, the fields this program
reads (timestamps at whole-second resolution). -/
structure PyStat where
  st_size : Int
  st_mtime : Int
deriving DecidableEq

/-- Result of a successful `TinyTag.get` call: the tag fields this
program reads.  Durations and rates are modelled at integer resolution,
which the claims never distinguish from the library's floats. -/
structure PyTag where
  title : Option String := none
  artist : Option String := none
  albumartist : Option String := none
  composer : Option String := none
  album : Option String := none
  year : Option String := none
  genre : Option String := none
  duration : Option Int := none
  bitrate : Option Int := none
  samplerate : Option Int := none
  channels : Option Int := none

/-- The effectful environment of `extract_file_metadata`: path
resolution (whose failure is the outer `except Exception` branch),
`os.stat` (whose failure is the inner `except (PermissionError, OSError)`
branch), tag reading (whose failure is the `metadata_error` branch),
timestamp formatting, and the `METADATA_AVAILABLE` flag.  The model is
the POSIX branch of the source (no `st_birthtime`), whose created
timestamps fall back to the modified time. -/
structure Env where
  resolveError : String → Option String
  statResult : String → Except String PyStat
  tagResult : String → Except String PyTag
  formatTimestamp : Int → String
  metadataAvailable : Bool

/-- One priority level of `MetadataHandler.extract_comprehensive_artists`:
a field is used when it is present, nonempty after stripping, and its
normalization is nonempty; the normalized names are rendered sorted and
comma-joined. -/
def artistFieldResult (field : Option String) : Option String :=
  match field with
  | none => none
  | some s =>
    if s = "" then none
    else
      let stripped := String.mk (pyStrip s.data)
      if stripped = "" then none
      else
        let normalized := normalize_artists stripped
        if normalized.isEmpty then none
        else some (String.mk (joinCommaSpace normalized))

/-- `MetadataHandler.extract_comprehensive_artists` (source lines
201-241): use the first of artist, album artist, composer that yields a
nonempty normalized set; fields are never combined. -/
def extract_comprehensive_artists (tag : PyTag) : String :=
  match artistFieldResult tag.artist with
  | some r => r
  | none =>
    match artistFieldResult tag.albumartist with
    | some r => r
    | none =>
      match artistFieldResult tag.composer with
      | some r => r
      | none => ""

/-- `MetadataHandler.extract_file_metadata` (source lines 244-335). -/
def extract_file_metadata (env : Env) (file_path_str : String) : Metadata :=
  match env.resolveError file_path_str with
  | some e =>
    { file_path := file_path_str
      filename := some (pathName file_path_str)
      error := some e
      success := false }
  | none =>
    let base : Metadata :=
      { file_path := file_path_str
        filename := some (pathName file_path_str)
        size_mb := some 0
        size_bytes := some 0
        duration_formatted := some ""
        quality := some (get_audio_quality_indicator file_path_str)
        modified_date := some "Unknown"
        created_date := some "Unknown"
        title := some ""
        contributing_artists := some ""
        album_artist := some ""
        raw_artists := some ""
        normalized_artists_debug := some ""
        success := true }
    let m :=
      match env.statResult file_path_str with
      | .ok st =>
        { base with
          size_bytes := some st.st_size
          size_mb := some (pyRoundDiv st.st_size 1048576)
          modified := some st.st_mtime
          modified_date := some (env.formatTimestamp st.st_mtime)
          created := some st.st_mtime
          created_date := some (env.formatTimestamp st.st_mtime) }
      | .error e => { base with file_error := some e, success := false }
    if env.metadataAvailable && m.success then
      match env.tagResult file_path_str with
      | .ok tag =>
        let comprehensive := extract_comprehensive_artists tag
        let dur : Int := match tag.duration with | some d => d | none => 0
        let m2 :=
          { m with
            raw_artists := some comprehensive
            normalized_artists_debug :=
              some (String.mk (joinCommaSpace (normalize_artists comprehensive)))
            title := some (tag.title.getD "")
            contributing_artists := some comprehensive
            album_artist := some (tag.albumartist.getD "")
            album := some (tag.album.getD "")
            year := some (tag.year.getD "")
            genre := some (tag.genre.getD "")
            duration := some dur
            bitrate := some (tag.bitrate.getD 0)
            samplerate := some (tag.samplerate.getD 0)
            channels := some (tag.channels.getD 0)
            artist := some comprehensive }
        if dur ≠ 0 then { m2 with duration_formatted := some (fmtDuration dur) } else m2
      | .error e => { m with metadata_error := some e }
    else m

/-! ## DuplicateDetector.group_by_metadata (source lines 461-560) -/

/-- One surviving candidate of the first pass of `group_by_metadata`:
path, normalized base title, normalized artist set. -/
structure FileInfo where
  file_path : String
  base_title : String
  artists : List String
deriving DecidableEq

/-- The match predicate of the second pass (source lines 528-537): equal
base titles, and overlapping artist sets or one a subset of the other. -/
def matchesB (file1 file2 : FileInfo) : Bool :=
  (file1.base_title == file2.base_title)
    && (!(setInter file1.artists file2.artists).isEmpty
        || setSubset file1.artists file2.artists
        || setSubset file2.artists file1.artists)

/-- One iteration of the first pass of `group_by_metadata` (source lines
486-506): keep a successful record with nonempty title and path, compute
the base title and artist set, and keep the record when both are
nonempty. -/
def fileInfoOf (meta : Metadata) : Option FileInfo :=
  if !meta.success then none
  else
    let title := meta.title.getD ""
    let contributing_artists_str := meta.contributing_artists.getD ""
    let file_path := meta.file_path
    if title = "" || file_path = "" then none
    else
      let base_title := extract_base_title title
      let contributing_artists :=
        if contributing_artists_str = "" then []
        else normalize_artists contributing_artists_str
      if base_title ≠ "" ∧ !contributing_artists.isEmpty then
        some { file_path := file_path, base_title := base_title,
               artists := contributing_artists }
      else none

/-- The first pass of `group_by_metadata` (source lines 483-510). -/
def fileInfoList (files_metadata : List Metadata) : List FileInfo :=
  files_metadata.filterMap fileInfoOf

/-- The second pass of `group_by_metadata` (source lines 512-549) as a
worklist recursion: the head of the worklist is the next unclaimed
candidate and becomes the anchor of a fresh group; the subsequent
unclaimed candidates matching it are claimed into the group (the
in-place `grouped` flags of the source correspond to removal from the
worklist), and the group is kept only with at least two members.  The
fuel is called with the worklist length, which bounds the recursion
because each step consumes the anchor. -/
def groupPassGo : Nat → List FileInfo → List (List FileInfo)
  | 0, _ => []
  | _, [] => []
  | fuel + 1, file1 :: t =>
    if 2 ≤ (file1 :: t.filter (fun file2 => matchesB file1 file2)).length then
      (file1 :: t.filter (fun file2 => matchesB file1 file2)) ::
        groupPassGo fuel (t.filter (fun file2 => !matchesB file1 file2))
    else groupPassGo fuel (t.filter (fun file2 => !matchesB file1 file2))

/-- The second pass of `group_by_metadata`. -/
def groupPass (l : List FileInfo) : List (List FileInfo) := groupPassGo l.length l

/-- The group label (source lines 554-556): title-cased anchor base
title, a dash, and the sorted comma-joined anchor artist set. -/
def groupName : List FileInfo → String
  | [] => ""
  | first_file :: _ =>
    String.mk (pyTitle first_file.base_title.data
      ++ (' ' :: '-' :: ' ' :: joinCommaSpace first_file.artists))

/-- Python `dict` insertion `result[key] = value`: replace the value of
an existing key in place, otherwise append the pair. -/
def pyDictInsert : List (String × List String) → String → List String →
    List (String × List String)
  | [], k, v => [(k, v)]
  | e :: d, k, v => if e.1 = k then (k, v) :: d else e :: pyDictInsert d k v

/-- One step of the result-dictionary construction (source line 558):
`result[group_name] = [file['file_path'] for file in group]`. -/
def dictStep (result : List (String × List String)) (group : List FileInfo) :
    List (String × List String) :=
  pyDictInsert result (groupName group) (group.map (fun file => file.file_path))

/-- `DuplicateDetector.group_by_metadata`: group the metadata records and
render the result dictionary mapping group labels to member path lists
(source lines 551-560). -/
def group_by_metadata (files_metadata : List Metadata) : List (String × List String) :=
  (groupPass (fileInfoList files_metadata)).foldl dictStep []

/-! ## AudioDuplicateDetectorUI.auto_select_longest (source lines 1007-1040) -/

/-- One file row of a duplicate group in the results tree: the path and
the displayed `length` and `size` column texts read back by
`auto_select_longest`. -/
structure TreeRow where
  file_path : String
  length_str : String
  size_str : String
deriving DecidableEq

/-- The sort key `(duration_sec, size_mb)` of a row; the size column
always holds the decimal rendering of an integer (`size_mb` is produced
by `round`), on which Python `float` is exact, so the key is modelled in
integers, with the `ValueError` fallback to 0. -/
def rowKey (r : TreeRow) : Int × Int :=
  (duration_to_seconds r.length_str, (pyInt? r.size_str).getD 0)

/-- Descending lexicographic comparison of sort keys: `a` sorts no later
than `b`. -/
def lexGeKey (a b : Int × Int) : Bool :=
  b.1 < a.1 || (a.1 = b.1 && b.2 ≤ a.2)

/-- Stable insertion into a descending-sorted row list: the inserted row
goes before the first row it compares greater-or-equal to, so rows with
equal keys keep their original order, as Python's stable
`sort(reverse=True)` keeps them. -/
def insertRowDesc (a : TreeRow) : List TreeRow → List TreeRow
  | [] => [a]
  | b :: t => if lexGeKey (rowKey a) (rowKey b) then a :: b :: t else b :: insertRowDesc a t

/-- Stable descending sort by `(duration_sec, size_mb)`, the model of
`files_in_group.sort(key=lambda x: (x[2], x[3]), reverse=True)` (any two
stable sorts under the same total preorder agree). -/
def sortRowsDesc : List TreeRow → List TreeRow
  | [] => []
  | a :: t => insertRowDesc a (sortRowsDesc t)

/-- The kept (first after the descending sort) member of one group, when
the group has at least two rows (source lines 1026-1033). -/
def keptInGroup (rows : List TreeRow) : Option TreeRow :=
  if rows.length ≤ 1 then none else (sortRowsDesc rows).head?

/-- The paths marked for deletion in one group: every sorted member
except the first (source lines 1031-1038); singleton groups are skipped. -/
def selectInGroup (rows : List TreeRow) : List String :=
  if rows.length ≤ 1 then [] else ((sortRowsDesc rows).tail).map (fun r => r.file_path)

/-- `AudioDuplicateDetectorUI.auto_select_longest`: the selection set
(as the sequence of paths added to `selected_files`) over all groups. -/
def auto_select_longest (groups : List (List TreeRow)) : List String :=
  groups.foldl (fun selected g => selected ++ selectInGroup g) []

/-! ## FileOperations.delete_files (source lines 435-453) -/

/-- One step of the deletion loop of `FileOperations.delete_files`:
update the `(deleted_count, failed_deletions, filesystem)` accumulator
for one path.  The filesystem is modelled as the duplicate-free list of
existing paths; `os.remove` succeeds exactly on an existing path and
raises `FileNotFoundError` otherwise (permission errors are outside this
model). -/
def deleteStep (acc : Int × List String × List String) (file_path : String) :
    Int × List String × List String :=
  if file_path ∈ acc.2.2 then (acc.1 + 1, acc.2.1, acc.2.2.erase file_path)
  else (acc.1, acc.2.1 ++ [pathName file_path ++ ": File not found"], acc.2.2)

/-- `FileOperations.delete_files`: delete the given paths (in the
iteration order of the Python set), returning the success count, the
collected failure messages, and the final filesystem. -/
def delete_files (fs : List String) (files_to_delete : List String) :
    Int × List String × List String :=
  files_to_delete.foldl deleteStep (0, [], fs)

/-! ## General list lemmas used by the grouping proofs -/

/-- Cons on both sides preserves sub-permutation. -/
theorem subpermConsBoth {α : Type _} {a : α} {l₁ l₂ : List α} (h : l₁.Subperm l₂) :
    (a :: l₁).Subperm (a :: l₂) :=
  (List.subperm_cons a).mpr h

/-- Append on the left preserves sub-permutation. -/
theorem subpermAppendLeftBoth {α : Type _} (l : List α) {l₁ l₂ : List α}
    (h : l₁.Subperm l₂) : (l ++ l₁).Subperm (l ++ l₂) := by
  obtain ⟨u, hperm, hsub⟩ := h
  exact ⟨l ++ u, hperm.append_left l, hsub.append_left l⟩

/-- Append on the right preserves sub-permutation. -/
theorem subpermAppendRightBoth {α : Type _} (r : List α) {l₁ l₂ : List α}
    (h : l₁.Subperm l₂) : (l₁ ++ r).Subperm (l₂ ++ r) := by
  obtain ⟨u, hperm, hsub⟩ := h
  exact ⟨u ++ r, hperm.append_right r, hsub.append_right r⟩

/-- Mapping preserves sub-permutation. -/
theorem subpermMap {α β : Type _} (f : α → β) {l₁ l₂ : List α} (h : l₁.Subperm l₂) :
    (l₁.map f).Subperm (l₂.map f) := by
  obtain ⟨u, hperm, hsub⟩ := h
  exact ⟨u.map f, hperm.map f, hsub.map f⟩

/-- A sub-permutation of a duplicate-free list is duplicate-free. -/
theorem subpermNodup {α : Type _} {l₁ l₂ : List α} (h : l₁.Subperm l₂)
    (h₂ : l₂.Nodup) : l₁.Nodup := by
  obtain ⟨u, hperm, hsub⟩ := h
  exact hperm.nodup (hsub.nodup h₂)

/-- Flattening preserves the sublist relation. -/
theorem sublistFlatten {α : Type _} {L₁ L₂ : List (List α)} (h : L₁.Sublist L₂) :
    L₁.flatten.Sublist L₂.flatten := by
  induction h with
  | slnil => exact List.Sublist.refl _
  | cons l _ ih => exact ih.trans (List.sublist_append_right l _)
  | cons₂ l _ ih => exact ih.append_left l

/-- Flattening a sub-permutation of a list of lists with duplicate-free
flattening yields a duplicate-free list. -/
theorem subpermFlattenNodup {α : Type _} {V L : List (List α)} (h : V.Subperm L)
    (hn : L.flatten.Nodup) : V.flatten.Nodup := by
  obtain ⟨u, hperm, hsub⟩ := h
  exact hperm.flatten.nodup ((sublistFlatten hsub).nodup hn)

/-! ## Lemmas about the grouping pass -/

/-- Every group produced by the grouping pass consists of an anchor
followed by exactly the matching candidates among a selection of the
later worklist entries, and has at least two members. -/
theorem groupPassGo_anchor : ∀ (fuel : Nat) (l : List FileInfo), l.length ≤ fuel →
    ∀ g ∈ groupPassGo fuel l,
      ∃ a rest, (a :: rest).Sublist l ∧
        g = a :: rest.filter (fun m => matchesB a m) ∧ 2 ≤ g.length := by
  intro fuel
  induction fuel with
  | zero =>
    intro l _ g hg
    simp [groupPassGo] at hg
  | succ n ih =>
    intro l hl g hg
    cases l with
    | nil => simp [groupPassGo] at hg
    | cons f t =>
      simp only [groupPassGo] at hg
      have hlt : t.length ≤ n := by
        simp only [List.length_cons] at hl
        omega
      have hrest : (t.filter (fun file2 => !matchesB f file2)).length ≤ n :=
        le_trans (List.length_filter_le _ t) hlt
      have hsubrest : (t.filter (fun file2 => !matchesB f file2)).Sublist (f :: t) :=
        (List.filter_sublist t).trans (List.sublist_cons_self f t)
      by_cases h2 : 2 ≤ (f :: t.filter (fun file2 => matchesB f file2)).length
      · rw [if_pos h2] at hg
        rcases List.mem_cons.mp hg with hEq | hMem
        · exact ⟨f, t, List.Sublist.refl _, hEq, by rw [hEq]; exact h2⟩
        · obtain ⟨a, rest, hsub, hgre, hglen⟩ := ih _ hrest g hMem
          exact ⟨a, rest, hsub.trans hsubrest, hgre, hglen⟩
      · rw [if_neg h2] at hg
        obtain ⟨a, rest, hsub, hgre, hglen⟩ := ih _ hrest g hg
        exact ⟨a, rest, hsub.trans hsubrest, hgre, hglen⟩

/-- Anchor characterization for `groupPass`. -/
theorem groupPass_anchor (l : List FileInfo) :
    ∀ g ∈ groupPass l,
      ∃ a rest, (a :: rest).Sublist l ∧
        g = a :: rest.filter (fun m => matchesB a m) ∧ 2 ≤ g.length :=
  groupPassGo_anchor l.length l le_rfl

/-- The concatenation of the groups is a sub-permutation of the worklist:
every candidate is claimed by at most one group. -/
theorem groupPassGo_flatten_subperm : ∀ (fuel : Nat) (l : List FileInfo),
    l.length ≤ fuel → (groupPassGo fuel l).flatten.Subperm l := by
  intro fuel
  induction fuel with
  | zero =>
    intro l _
    simp [groupPassGo]
  | succ n ih =>
    intro l hl
    cases l with
    | nil => simp [groupPassGo]
    | cons f t =>
      have hlt : t.length ≤ n := by
        simp only [List.length_cons] at hl
        omega
      have hrest : (t.filter (fun file2 => !matchesB f file2)).length ≤ n :=
        le_trans (List.length_filter_le _ t) hlt
      have hperm := List.filter_append_perm (fun file2 => matchesB f file2) t
      have ihr := ih _ hrest
      simp only [groupPassGo]
      by_cases h2 : 2 ≤ (f :: t.filter (fun file2 => matchesB f file2)).length
      · rw [if_pos h2]
        simp only [List.flatten_cons, List.cons_append]
        exact subpermConsBoth ((subpermAppendLeftBoth _ ihr).trans hperm.subperm)
      · rw [if_neg h2]
        exact (ihr.trans (List.filter_sublist t).subperm).trans
          (List.sublist_cons_self f t).subperm

/-- Claimed-at-most-once for `groupPass`. -/
theorem groupPass_flatten_subperm (l : List FileInfo) :
    (groupPass l).flatten.Subperm l :=
  groupPassGo_flatten_subperm l.length l le_rfl

/-- A successful match forces equal base titles. -/
theorem matchesB_base_title {a m : FileInfo} (h : matchesB a m = true) :
    a.base_title = m.base_title := by
  simp only [matchesB, Bool.and_eq_true, beq_iff_eq] at h
  exact h.1

/-- All members of one group share the base title. -/
theorem groupPass_member_title {l : List FileInfo} {g : List FileInfo}
    (hg : g ∈ groupPass l) :
    ∀ m1 ∈ g, ∀ m2 ∈ g, m1.base_title = m2.base_title := by
  obtain ⟨a, rest, _, hge, _⟩ := groupPass_anchor l g hg
  have key : ∀ m ∈ g, m.base_title = a.base_title := by
    intro m hm
    rw [hge] at hm
    rcases List.mem_cons.mp hm with h | h
    · rw [h]
    · exact (matchesB_base_title (List.mem_filter.mp h).2).symm
  intro m1 h1 m2 h2
  rw [key m1 h1, key m2 h2]

/-- On a two-candidate worklist whose candidates match, the grouping pass
produces the single group of both. -/
theorem groupPass_pair {r1 r2 : FileInfo} (hm : matchesB r1 r2 = true) :
    groupPass [r1, r2] = [[r1, r2]] := by
  simp [groupPass, groupPassGo, hm]

/-! ## Lemmas about the result dictionary -/

/-- The values of the dictionary after an insertion are a sub-permutation
of the old values with the new value appended. -/
theorem pyDictInsert_vals_subperm :
    ∀ (d : List (String × List String)) (k : String) (v : List String),
      ((pyDictInsert d k v).map (fun e => e.2)).Subperm (d.map (fun e => e.2) ++ [v]) := by
  intro d
  induction d with
  | nil =>
    intro k v
    simp only [pyDictInsert, List.map_cons, List.map_nil, List.nil_append]
    exact List.Subperm.refl _
  | cons e d ih =>
    intro k v
    rw [pyDictInsert]
    by_cases he : e.1 = k
    · rw [if_pos he]
      simp only [List.map_cons, List.cons_append]
      exact ((@List.perm_append_comm _ [v] (d.map (fun e => e.2))).subperm).trans
        (List.sublist_cons_self _ _).subperm
    · rw [if_neg he]
      simp only [List.map_cons, List.cons_append]
      exact subpermConsBoth (ih k v)

/-- Every value of the dictionary after an insertion is the inserted
value or a value already present. -/
theorem pyDictInsert_mem_vals :
    ∀ {d : List (String × List String)} {k : String} {v : List String}
      {e : String × List String}, e ∈ pyDictInsert d k v → e.2 = v ∨ e ∈ d := by
  intro d
  induction d with
  | nil =>
    intro k v e he
    simp only [pyDictInsert, List.mem_singleton] at he
    exact Or.inl (by rw [he])
  | cons f d ih =>
    intro k v e he
    rw [pyDictInsert] at he
    by_cases hf : f.1 = k
    · rw [if_pos hf] at he
      rcases List.mem_cons.mp he with h | h
      · exact Or.inl (by rw [h])
      · exact Or.inr (List.mem_cons_of_mem _ h)
    · rw [if_neg hf] at he
      rcases List.mem_cons.mp he with h | h
      · exact Or.inr (h ▸ List.mem_cons_self _ _)
      · rcases ih h with h' | h'
        · exact Or.inl h'
        · exact Or.inr (List.mem_cons_of_mem _ h')

/-- The values of the folded dictionary are a sub-permutation of the
initial values followed by the path lists of the groups. -/
theorem groupFold_vals_subperm :
    ∀ (gs : List (List FileInfo)) (d : List (String × List String)),
      ((gs.foldl dictStep d).map (fun e => e.2)).Subperm
        (d.map (fun e => e.2) ++ gs.map (fun g => g.map (fun file => file.file_path))) := by
  intro gs
  induction gs with
  | nil =>
    intro d
    simp only [List.foldl_nil, List.map_nil, List.append_nil]
    exact List.Subperm.refl _
  | cons g gs ih =>
    intro d
    simp only [List.foldl_cons, List.map_cons]
    have h1 := ih (dictStep d g)
    simp only [dictStep] at h1
    have h2 := pyDictInsert_vals_subperm d (groupName g) (g.map (fun file => file.file_path))
    have h3 := subpermAppendRightBoth
      (gs.map (fun g => g.map (fun file => file.file_path))) h2
    have h4 := h1.trans h3
    rwa [List.append_assoc, List.singleton_append] at h4

/-- Fold invariant: a property of the group path lists that holds for
the initial values holds for every value of the folded dictionary. -/
theorem groupFold_mem :
    ∀ (gs : List (List FileInfo)) (d : List (String × List String))
      (P : List String → Prop),
      (∀ e ∈ d, P e.2) →
      (∀ g ∈ gs, P (g.map (fun file => file.file_path))) →
      ∀ e ∈ gs.foldl dictStep d, P e.2 := by
  intro gs
  induction gs with
  | nil =>
    intro d P hd _ e he
    simp only [List.foldl_nil] at he
    exact hd e he
  | cons g gs ih =>
    intro d P hd hg e he
    simp only [List.foldl_cons] at he
    refine ih (dictStep d g) P ?_ (fun g' hg' => hg g' (List.mem_cons_of_mem _ hg')) e he
    intro e' he'
    simp only [dictStep] at he'
    rcases pyDictInsert_mem_vals he' with h | h
    · rw [h]
      exact hg g (List.mem_cons_self _ _)
    · exact hd e' h

/-! ## Lemmas about the first pass -/

/-- A record surviving the first pass keeps its path. -/
theorem fileInfoOf_path : ∀ {meta : Metadata} {fi : FileInfo},
    fileInfoOf meta = some fi → fi.file_path = meta.file_path := by
  intro meta fi h
  simp only [fileInfoOf] at h
  repeat' split at h
  all_goals try exact Option.noConfusion h
  all_goals rw [← Option.some.inj h]

/-- The paths of the surviving candidates form a sublist of the input
record paths. -/
theorem fileInfoList_path_sublist : ∀ (metas : List Metadata),
    ((fileInfoList metas).map (fun fi => fi.file_path)).Sublist
      (metas.map (fun m => m.file_path)) := by
  intro metas
  induction metas with
  | nil => simp [fileInfoList]
  | cons m rest ih =>
    simp only [fileInfoList, List.filterMap_cons, List.map_cons]
    cases hm : fileInfoOf m with
    | none =>
      exact List.Sublist.trans ih (List.sublist_cons_self _ _)
    | some fi =>
      simp only [List.map_cons, fileInfoOf_path hm]
      exact List.cons_sublist_cons.mpr ih

/-! ## Demonstration inputs used by witnesses and counterexamples -/

/-- A successful metadata record with the given path, title and
contributing-artists string, as the extractor produces for a readable
tagged file. -/
def demoMetaRecord (p t a : String) : Metadata :=
  { file_path := p, title := some t, contributing_artists := some a, success := true }

/-- Demo scan: two copies of one song with overlapping artist sets. -/
def demoPairMetas : List Metadata :=
  [demoMetaRecord "p1" "Song" "X", demoMetaRecord "p2" "Song (Remix)" "Y, X"]

/-- The duplicate group formed on `demoPairMetas`. -/
def demoPairGroup : List FileInfo :=
  [⟨"p1", "song", ["x"]⟩, ⟨"p2", "song", ["x", "y"]⟩]

/-! ## C1: anchor-based admission -/

/-- C1.  For every input list of metadata records, every group emitted by
the grouping pass is an anchor (the first unclaimed candidate, in
original input order) followed by exactly the later unclaimed candidates
that match the anchor under the predicate of `matchesB` (equal base
titles, and intersecting or subset-related artist sets); membership is
never decided pairwise among non-anchor members, and the group has at
least two members. -/
theorem grouping_anchor_characterization (metas : List Metadata) :
    ∀ g ∈ groupPass (fileInfoList metas),
      ∃ a rest, (a :: rest).Sublist (fileInfoList metas) ∧
        g = a :: rest.filter (fun m => matchesB a m) ∧ 2 ≤ g.length :=
  groupPass_anchor (fileInfoList metas)

/-- Witness for C1 at the concrete demo scan. -/
theorem grouping_anchor_characterization_witness :
    ∃ a rest, (a :: rest).Sublist (fileInfoList demoPairMetas) ∧
      demoPairGroup = a :: rest.filter (fun m => matchesB a m) ∧
      2 ≤ demoPairGroup.length :=
  grouping_anchor_characterization demoPairMetas demoPairGroup (by decide)

/-! ## C2: grouping of a surviving pair -/

/-- C2 (amended).  The separation half of the claim holds for every
input: two surviving records with different normalized base titles never
land in the same group, because every member matches the anchor and
matching forces base-title equality.  The completeness half holds when
the two records are the only surviving candidates: they then land in the
same group whenever the match predicate (equal base titles with
overlapping or subset-related artist sets) holds.  For general inputs
completeness fails (see the counterexample): an earlier anchor can claim
one of the two records first. -/
theorem grouping_pair_amended :
    (∀ (metas : List Metadata) (r1 r2 : FileInfo),
        fileInfoList metas = [r1, r2] → matchesB r1 r2 = true →
        ∃ g ∈ groupPass (fileInfoList metas), r1 ∈ g ∧ r2 ∈ g)
    ∧ (∀ (metas : List Metadata) (g : List FileInfo) (r1 r2 : FileInfo),
        g ∈ groupPass (fileInfoList metas) → r1 ∈ g → r2 ∈ g →
        r1.base_title = r2.base_title) := by
  constructor
  · intro metas r1 r2 hfi hm
    rw [hfi, groupPass_pair hm]
    exact ⟨[r1, r2], List.mem_singleton.mpr rfl,
      List.mem_cons_self _ _, List.mem_cons_of_mem _ (List.mem_cons_self _ _)⟩
  · intro metas g r1 r2 hg h1 h2
    exact groupPass_member_title hg r1 h1 r2 h2

/-- Witness for C2 at the concrete demo scan. -/
theorem grouping_pair_amended_witness :
    ∃ g ∈ groupPass (fileInfoList demoPairMetas),
      (⟨"p1", "song", ["x"]⟩ : FileInfo) ∈ g ∧
      (⟨"p2", "song", ["x", "y"]⟩ : FileInfo) ∈ g :=
  grouping_pair_amended.1 demoPairMetas _ _ (by decide) (by decide)

/-- Input refuting the completeness half of C2 as stated: four records
of one song; the anchor claims the record with artist set x y but not
the records with artist set y. -/
def c2Metas : List Metadata :=
  [demoMetaRecord "p1" "s" "x", demoMetaRecord "p2" "s" "x, y",
   demoMetaRecord "p3" "s" "y", demoMetaRecord "p4" "s" "y"]

/-- The surviving record of path p2. -/
def c2RecXY : FileInfo := ⟨"p2", "s", ["x", "y"]⟩

/-- The surviving record of path p3. -/
def c2RecY : FileInfo := ⟨"p3", "s", ["y"]⟩

/-- Counterexample to C2 as stated: both records survive preprocessing,
their normalized base titles are identical and their artist sets overlap
(they share the artist y), yet no emitted group contains both — the
first record is claimed by the anchor of path p1, the second lands in
the later group of paths p3 and p4. -/
theorem grouping_completeness_counterexample :
    c2RecXY ∈ fileInfoList c2Metas ∧ c2RecY ∈ fileInfoList c2Metas ∧
    c2RecXY.base_title = c2RecY.base_title ∧
    (setInter c2RecXY.artists c2RecY.artists).isEmpty = false ∧
    ((groupPass (fileInfoList c2Metas)).all
      (fun g => !(g.contains c2RecXY && g.contains c2RecY))) = true := by
  decide

/-! ## C5: no singleton groups -/

/-- C5.  Every group of the returned dictionary has at least two member
file paths: a candidate group ending with a single member is discarded
before the dictionary is built. -/
theorem group_min_size (metas : List Metadata) :
    ∀ e ∈ group_by_metadata metas, 2 ≤ e.2.length := by
  intro e he
  refine groupFold_mem (groupPass (fileInfoList metas)) [] (fun v => 2 ≤ v.length)
    (by simp) ?_ e he
  intro g hg
  obtain ⟨a, rest, _, _, hlen⟩ := groupPass_anchor _ g hg
  simpa using hlen

/-- Witness for C5 at the concrete demo scan. -/
theorem group_min_size_witness :
    2 ≤ (("Song - x", ["p1", "p2"]) : String × List String).2.length :=
  group_min_size demoPairMetas ("Song - x", ["p1", "p2"]) (by decide)

/-! ## C10: disjointness of the emitted groups -/

/-- C10 (amended).  For every input list of metadata records: when the
input record paths are pairwise distinct, the entries of the returned
dictionary are pairwise path-disjoint (no file path is a member of two
different groups); unconditionally, the concatenation of the groups is a
sub-permutation of the surviving candidates (each candidate record is
claimed by at most one group), and every member path of every returned
group is the path of a record that survived preprocessing.  The
distinct-path hypothesis cannot be dropped (see the counterexample):
two input records sharing a path can land in two different groups. -/
theorem grouping_disjointness (metas : List Metadata) :
    ((metas.map (fun m => m.file_path)).Nodup →
      (group_by_metadata metas).Pairwise (fun e1 e2 => ∀ p ∈ e1.2, p ∉ e2.2))
    ∧ (groupPass (fileInfoList metas)).flatten.Subperm (fileInfoList metas)
    ∧ (∀ e ∈ group_by_metadata metas, ∀ p ∈ e.2,
        ∃ fi ∈ fileInfoList metas, p = fi.file_path) := by
  refine ⟨?_, groupPass_flatten_subperm _, ?_⟩
  · intro hnd
    have hfi : ((fileInfoList metas).map (fun fi => fi.file_path)).Nodup :=
      (fileInfoList_path_sublist metas).nodup hnd
    have hflat : (((groupPass (fileInfoList metas)).flatten).map
        (fun fi => fi.file_path)).Nodup :=
      subpermNodup (subpermMap _ (groupPass_flatten_subperm _)) hfi
    rw [List.map_flatten] at hflat
    have hvals := groupFold_vals_subperm (groupPass (fileInfoList metas)) []
    simp only [List.map_nil, List.nil_append] at hvals
    have hvnodup := subpermFlattenNodup hvals hflat
    have hpair := (List.nodup_flatten.mp hvnodup).2
    rw [List.pairwise_map] at hpair
    exact hpair.imp (fun h p hp hq => h hp hq)
  · intro e he p hp
    refine groupFold_mem (groupPass (fileInfoList metas)) []
      (fun v => ∀ q ∈ v, ∃ fi ∈ fileInfoList metas, q = fi.file_path)
      (by simp) ?_ e he p hp
    intro g hg q hq
    obtain ⟨fi, hfig, rfl⟩ := List.mem_map.mp hq
    refine ⟨fi, ?_, rfl⟩
    have hmem : fi ∈ (groupPass (fileInfoList metas)).flatten :=
      List.mem_flatten.mpr ⟨g, hg, hfig⟩
    exact (groupPass_flatten_subperm _).subset hmem

/-- Witness for C10 at the concrete demo scan, whose record paths are
distinct. -/
theorem grouping_disjointness_witness :
    (group_by_metadata demoPairMetas).Pairwise (fun e1 e2 => ∀ p ∈ e1.2, p ∉ e2.2) :=
  (grouping_disjointness demoPairMetas).1 (by decide)

/-- Input refuting C10 as stated: the path p occurs in two records with
different titles. -/
def c10Metas : List Metadata :=
  [demoMetaRecord "p" "a" "x", demoMetaRecord "q" "a" "x",
   demoMetaRecord "p" "b" "x", demoMetaRecord "r" "b" "x"]

/-- Counterexample to C10 as stated over every input list: with a
duplicated input path, the returned dictionary holds two different
groups that both contain the path p, so the groups are not pairwise
disjoint. -/
theorem grouping_duplicate_path_counterexample :
    group_by_metadata c10Metas = [("A - x", ["p", "q"]), ("B - x", ["p", "r"])] ∧
    ¬ (group_by_metadata c10Metas).Pairwise (fun e1 e2 => ∀ p ∈ e1.2, p ∉ e2.2) := by
  constructor
  · decide
  · intro h
    have := List.pairwise_cons.mp h
    exact this.1 ("B - x", ["p", "r"]) (by decide) "p" (by decide) (by decide)

/-! ## C3: the featuring credit in an artist string -/

/-- Counterexample to C3 as stated: `normalize_artists` applied to
"Artist A feat. Artist B" returns exactly the two-element set of both
artists, not the singleton of the first artist: the word-delimiter
substitution turns " feat. " into a comma before the per-piece
featuring-credit stripping can see it. -/
theorem normalize_artists_feat_counterexample :
    normalize_artists "Artist A feat. Artist B" = ["artist a", "artist b"] ∧
    normalize_artists "Artist A feat. Artist B" ≠ ["artist a"] := by
  constructor
  · decide
  · decide

/-- C3 (amended).  On "Artist A feat. Artist B" the featuring word acts
as an artist delimiter: the result is the two-element set of "artist a"
and "artist b".  The trailing featuring-credit strip fires only when the
credit survives delimiter splitting, as in "Artist A featuring Artist B"
(the word featuring is not a delimiter), which indeed yields the
singleton of "artist a". -/
theorem normalize_artists_feat_amended :
    normalize_artists "Artist A feat. Artist B" = ["artist a", "artist b"] ∧
    normalize_artists "Artist A featuring Artist B" = ["artist a"] := by
  constructor
  · decide
  · decide

/-! ## C4: case and diacritic handling of artist names -/

/-- Counterexample to C4 as stated: the accented character of "Beyoncé"
is dropped by the ASCII transliteration (not transliterated to the plain
letter e), so the two spellings normalize to different sets. -/
theorem normalize_artists_beyonce_counterexample :
    normalize_artists "Beyoncé" = ["beyonc"] ∧
    normalize_artists "beyonce" = ["beyonce"] ∧
    normalize_artists "Beyoncé" ≠ normalize_artists "beyonce" := by
  refine ⟨by decide, by decide, by decide⟩

/-- C4 (amended).  Artist normalization is case-insensitive — the
accented and the all-uppercase spellings of Beyoncé normalize equally —
but not diacritic-insensitive in the claimed sense: the accented
character is dropped entirely, so the result "beyonc" differs from the
normalization of the plain-ASCII spelling "beyonce". -/
theorem normalize_artists_beyonce_amended :
    normalize_artists "Beyoncé" = normalize_artists "BEYONCÉ" ∧
    normalize_artists "Beyoncé" = ["beyonc"] ∧
    normalize_artists "Beyoncé" ≠ normalize_artists "beyonce" := by
  refine ⟨by decide, by decide, by decide⟩

/-! ## C6: base-title stability under version tags -/

/-- C6.  Parenthetical segments and trailing dash-introduced version
suffixes are removed by the base-title extractor: both "Song (Radio
Edit)" and "song - extended mix" normalize to exactly the string
"song". -/
theorem extract_base_title_version_tags :
    extract_base_title "Song (Radio Edit)" = "song" ∧
    extract_base_title "song - extended mix" = "song" := by
  constructor
  · decide
  · decide

/-! ## Lemmas about the survivor selector -/

/-- The descending key comparison is reflexive. -/
theorem lexGeKey_refl (a : Int × Int) : lexGeKey a a = true := by
  simp [lexGeKey]

/-- The descending key comparison is total. -/
theorem lexGeKey_total (a b : Int × Int) :
    lexGeKey a b = true ∨ lexGeKey b a = true := by
  simp only [lexGeKey, Bool.or_eq_true, Bool.and_eq_true, decide_eq_true_eq]
  omega

/-- The descending key comparison is transitive. -/
theorem lexGeKey_trans {a b c : Int × Int} (h1 : lexGeKey a b = true)
    (h2 : lexGeKey b c = true) : lexGeKey a c = true := by
  simp only [lexGeKey, Bool.or_eq_true, Bool.and_eq_true, decide_eq_true_eq] at h1 h2 ⊢
  omega

/-- Stable insertion permutes the inserted row to the front. -/
theorem insertRowDesc_perm (a : TreeRow) (l : List TreeRow) :
    (insertRowDesc a l).Perm (a :: l) := by
  induction l with
  | nil => exact List.Perm.refl _
  | cons b t ih =>
    rw [insertRowDesc]
    by_cases h : lexGeKey (rowKey a) (rowKey b) = true
    · rw [if_pos h]
    · rw [if_neg h]
      exact (ih.cons b).trans (List.Perm.swap a b t)

/-- The stable sort permutes its input. -/
theorem sortRowsDesc_perm (l : List TreeRow) : (sortRowsDesc l).Perm l := by
  induction l with
  | nil => exact List.Perm.refl _
  | cons a t ih => exact (insertRowDesc_perm a (sortRowsDesc t)).trans (ih.cons a)

/-- Stable insertion preserves the descending order. -/
theorem insertRowDesc_pairwise {a : TreeRow} {l : List TreeRow}
    (hl : l.Pairwise (fun x y => lexGeKey (rowKey x) (rowKey y) = true)) :
    (insertRowDesc a l).Pairwise (fun x y => lexGeKey (rowKey x) (rowKey y) = true) := by
  induction l with
  | nil => simp [insertRowDesc]
  | cons b t ih =>
    rw [insertRowDesc]
    rcases List.pairwise_cons.mp hl with ⟨hb, ht⟩
    by_cases h : lexGeKey (rowKey a) (rowKey b) = true
    · rw [if_pos h]
      refine List.Pairwise.cons ?_ hl
      intro x hx
      rcases List.mem_cons.mp hx with rfl | hx
      · exact h
      · exact lexGeKey_trans h (hb x hx)
    · rw [if_neg h]
      have hba : lexGeKey (rowKey b) (rowKey a) = true :=
        (lexGeKey_total _ _).resolve_left h
      refine List.Pairwise.cons ?_ (ih ht)
      intro x hx
      have hx' := (insertRowDesc_perm a t).mem_iff.mp hx
      rcases List.mem_cons.mp hx' with rfl | hx'
      · exact hba
      · exact hb x hx'

/-- The stable sort is descending-sorted. -/
theorem sortRowsDesc_pairwise (l : List TreeRow) :
    (sortRowsDesc l).Pairwise (fun x y => lexGeKey (rowKey x) (rowKey y) = true) := by
  induction l with
  | nil => exact List.Pairwise.nil
  | cons a t ih => exact insertRowDesc_pairwise ih

/-! ## C7: survivor selection -/

/-- The concrete group of the claim: durations 200, 350, 350 seconds
(shown as 3:20 and 5:50) and sizes 5, 4, 6 megabytes. -/
def c7Rows : List TreeRow :=
  [⟨"p1", "3:20", "5"⟩, ⟨"p2", "5:50", "4"⟩, ⟨"p3", "5:50", "6"⟩]

/-- C7.  For every duplicate group with at least two members, the
selector keeps exactly one member, which is maximal in the descending
lexicographic order on `(duration_sec, size_mb)`, and marks exactly the
remaining members for deletion; concretely, on the group with durations
200, 350, 350 seconds and sizes 5, 4, 6 megabytes, the kept member is
the one with duration 350 seconds and size 6 (the selection wired
through `auto_select_longest` marks the other two). -/
theorem auto_select_keeps_longest_largest :
    (∀ rows : List TreeRow, 2 ≤ rows.length →
      ∃ k, keptInGroup rows = some k ∧ k ∈ rows ∧
        (∀ r ∈ rows, lexGeKey (rowKey k) (rowKey r) = true) ∧
        (selectInGroup rows).Perm ((rows.erase k).map (fun r => r.file_path)))
    ∧ keptInGroup c7Rows = some ⟨"p3", "5:50", "6"⟩
    ∧ auto_select_longest [c7Rows] = ["p2", "p1"] := by
  refine ⟨?_, by decide, by decide⟩
  intro rows h2
  have hp := sortRowsDesc_perm rows
  have hne : sortRowsDesc rows ≠ [] := by
    intro h
    rw [h] at hp
    have := hp.length_eq
    simp at this
    omega
  obtain ⟨k, t, hkt⟩ := List.exists_cons_of_ne_nil hne
  have hnotle : ¬ rows.length ≤ 1 := by omega
  have hkmem : k ∈ rows := hp.mem_iff.mp (by rw [hkt]; exact List.mem_cons_self _ _)
  refine ⟨k, ?_, hkmem, ?_, ?_⟩
  · simp [keptInGroup, hnotle, hkt]
  · intro r hr
    have hr' : r ∈ sortRowsDesc rows := hp.mem_iff.mpr hr
    rw [hkt] at hr'
    rcases List.mem_cons.mp hr' with rfl | hr'
    · exact lexGeKey_refl _
    · have hpw := sortRowsDesc_pairwise rows
      rw [hkt] at hpw
      exact (List.pairwise_cons.mp hpw).1 r hr'
  · have h1 : (k :: t).Perm (k :: rows.erase k) := by
      rw [← hkt]
      exact hp.trans (List.perm_cons_erase hkmem)
    have htail : t.Perm (rows.erase k) := h1.cons_inv
    have hsel : selectInGroup rows = t.map (fun r => r.file_path) := by
      simp [selectInGroup, hnotle, hkt]
    rw [hsel]
    exact htail.map _

/-- Witness for C7 at the concrete group of the claim. -/
theorem auto_select_keeps_longest_largest_witness :
    ∃ k, keptInGroup c7Rows = some k ∧ k ∈ c7Rows ∧
      (∀ r ∈ c7Rows, lexGeKey (rowKey k) (rowKey r) = true) ∧
      (selectInGroup c7Rows).Perm ((c7Rows.erase k).map (fun r => r.file_path)) :=
  auto_select_keeps_longest_largest.1 c7Rows (by decide)

/-! ## Lemmas about the deletion loop -/

/-- The deletion loop only ever shrinks the filesystem. -/
theorem deleteFold_fs_subset :
    ∀ (ps : List String) (acc : Int × List String × List String),
      (ps.foldl deleteStep acc).2.2 ⊆ acc.2.2 := by
  intro ps
  induction ps with
  | nil =>
    intro acc
    exact fun x h => h
  | cons q qs ih =>
    intro acc
    simp only [List.foldl_cons]
    refine (ih (deleteStep acc q)).trans ?_
    simp only [deleteStep]
    by_cases h : q ∈ acc.2.2
    · rw [if_pos h]
      exact List.erase_subset _ _
    · rw [if_neg h]
      exact fun x h => h

/-- Deleting a duplicate-free batch of existing paths succeeds for every
path, adds no failure, and removes every path from the filesystem. -/
theorem deleteFold_all_ok :
    ∀ (ps fs : List String) (c : Int) (fl : List String),
      fs.Nodup → (∀ q ∈ ps, q ∈ fs) → ps.Nodup →
      (ps.foldl deleteStep (c, fl, fs)).1 = c + ps.length ∧
      (ps.foldl deleteStep (c, fl, fs)).2.1 = fl ∧
      ∀ q ∈ ps, q ∉ (ps.foldl deleteStep (c, fl, fs)).2.2 := by
  intro ps
  induction ps with
  | nil =>
    intro fs c fl _ _ _
    simp
  | cons q qs ih =>
    intro fs c fl hfs hmem hnd
    have hq : q ∈ fs := hmem q (List.mem_cons_self _ _)
    simp only [List.foldl_cons, deleteStep, if_pos hq]
    have hfs' : (fs.erase q).Nodup := hfs.erase q
    have hmem' : ∀ r ∈ qs, r ∈ fs.erase q := by
      intro r hr
      have hrq : r ≠ q := by
        rintro rfl
        exact (List.nodup_cons.mp hnd).1 hr
      exact (List.mem_erase_of_ne hrq).mpr (hmem r (List.mem_cons_of_mem _ hr))
    obtain ⟨h1, h2, h3⟩ := ih (fs.erase q) (c + 1) fl hfs' hmem' (List.nodup_cons.mp hnd).2
    refine ⟨?_, h2, ?_⟩
    · rw [h1]
      simp only [List.length_cons]
      push_cast
      ring
    · intro r hr
      rcases List.mem_cons.mp hr with rfl | hr
      · intro hcon
        exact hfs.not_mem_erase (deleteFold_fs_subset qs _ hcon)
      · exact h3 r hr

/-- Deleting a duplicate-free batch in which exactly one path is missing
from the filesystem deletes every other path, counts every other path as
deleted, and reports exactly the one failure. -/
theorem deleteFold_one_missing :
    ∀ (ps fs : List String) (c : Int) (fl : List String) (p : String),
      fs.Nodup → ps.Nodup → p ∈ ps → p ∉ fs → (∀ q ∈ ps, q ≠ p → q ∈ fs) →
      (ps.foldl deleteStep (c, fl, fs)).1 = c + ps.length - 1 ∧
      (ps.foldl deleteStep (c, fl, fs)).2.1 =
        fl ++ [pathName p ++ ": File not found"] ∧
      ∀ q ∈ ps, q ≠ p → q ∉ (ps.foldl deleteStep (c, fl, fs)).2.2 := by
  intro ps
  induction ps with
  | nil =>
    intro fs c fl p _ _ hp _ _
    exact absurd hp (List.not_mem_nil p)
  | cons q qs ih =>
    intro fs c fl p hfs hnd hp hpfs hmem
    by_cases hqp : q = p
    · subst hqp
      simp only [List.foldl_cons, deleteStep, if_neg hpfs]
      have hqs : ∀ r ∈ qs, r ∈ fs := by
        intro r hr
        refine hmem r (List.mem_cons_of_mem _ hr) ?_
        rintro rfl
        exact (List.nodup_cons.mp hnd).1 hr
      obtain ⟨h1, h2, h3⟩ :=
        deleteFold_all_ok qs fs c (fl ++ [pathName q ++ ": File not found"])
          hfs hqs (List.nodup_cons.mp hnd).2
      refine ⟨?_, h2, ?_⟩
      · rw [h1]
        simp only [List.length_cons]
        push_cast
        ring
      · intro r hr hrq
        rcases List.mem_cons.mp hr with rfl | hr
        · exact absurd rfl hrq
        · exact h3 r hr
    · have hq : q ∈ fs := hmem q (List.mem_cons_self _ _) hqp
      simp only [List.foldl_cons, deleteStep, if_pos hq]
      have hpqs : p ∈ qs := by
        rcases List.mem_cons.mp hp with rfl | hp'
        · exact absurd rfl hqp
        · exact hp'
      have hfs' : (fs.erase q).Nodup := hfs.erase q
      have hpfs' : p ∉ fs.erase q := fun hcon => hpfs (List.erase_subset _ _ hcon)
      have hmem' : ∀ r ∈ qs, r ≠ p → r ∈ fs.erase q := by
        intro r hr hrp
        have hrq : r ≠ q := by
          rintro rfl
          exact (List.nodup_cons.mp hnd).1 hr
        exact (List.mem_erase_of_ne hrq).mpr (hmem r (List.mem_cons_of_mem _ hr) hrp)
      obtain ⟨h1, h2, h3⟩ :=
        ih (fs.erase q) (c + 1) fl p hfs' (List.nodup_cons.mp hnd).2 hpqs hpfs' hmem'
      refine ⟨?_, h2, ?_⟩
      · rw [h1]
        simp only [List.length_cons]
        push_cast
        ring
      · intro r hr hrp
        rcases List.mem_cons.mp hr with rfl | hr
        · intro hcon
          exact hfs.not_mem_erase (deleteFold_fs_subset qs _ hcon)
        · exact h3 r hr hrp

/-! ## C8: deletion isolation -/

/-- C8.  Over a duplicate-free batch of paths in which exactly one path
is missing from the filesystem, `delete_files` deletes all the remaining
paths (the count is the batch size less one and each of those paths is
gone from the filesystem afterwards) and reports exactly one failure
reason, for the missing path; the failure neither aborts nor prevents
the remaining deletions. -/
theorem delete_files_isolated_failure
    (fs paths : List String) (p : String)
    (hfs : fs.Nodup) (hps : paths.Nodup) (hp : p ∈ paths) (hpfs : p ∉ fs)
    (hrest : ∀ q ∈ paths, q ≠ p → q ∈ fs) :
    (delete_files fs paths).1 = paths.length - 1 ∧
    (delete_files fs paths).2.1 = [pathName p ++ ": File not found"] ∧
    ∀ q ∈ paths, q ≠ p → q ∉ (delete_files fs paths).2.2 := by
  have h := deleteFold_one_missing paths fs 0 [] p hfs hps hp hpfs hrest
  simpa [delete_files] using h

/-- Witness for C8: deleting the batch a, b, c against a filesystem
holding only a and c. -/
theorem delete_files_isolated_failure_witness :
    (delete_files ["a", "c"] ["a", "b", "c"]).1 = (["a", "b", "c"] : List String).length - 1 ∧
    (delete_files ["a", "c"] ["a", "b", "c"]).2.1 = [pathName "b" ++ ": File not found"] ∧
    ∀ q ∈ (["a", "b", "c"] : List String), q ≠ "b" →
      q ∉ (delete_files ["a", "c"] ["a", "b", "c"]).2.2 :=
  delete_files_isolated_failure ["a", "c"] ["a", "b", "c"] "b"
    (by decide) (by decide) (by decide) (by decide) (by decide)

/-! ## C9: failure records of the metadata extractor -/

/-- Environment in which `os.stat` fails for every path while path
resolution succeeds. -/
def c9StatFailEnv : Env :=
  { resolveError := fun _ => none
    statResult := fun _ => Except.error "Permission denied"
    tagResult := fun _ => Except.error "unused"
    formatTimestamp := fun _ => "Unknown"
    metadataAvailable := true }

/-- Environment in which path resolution fails for every path. -/
def c9ResolveFailEnv : Env :=
  { resolveError := fun _ => some "bad path"
    statResult := fun _ => Except.error "unused"
    tagResult := fun _ => Except.error "unused"
    formatTimestamp := fun _ => "Unknown"
    metadataAvailable := true }

/-- Counterexample to C9 as stated: when the file stat fails (path
resolution succeeding), the record is a failure record, but it is not
reduced to path, filename and an error reason: the quality field is
populated from the extension, the title and contributing-artists keys
are present (holding their empty defaults), the reason is stored under
file_error, and the error key is absent. -/
theorem extract_metadata_stat_failure_counterexample :
    (extract_file_metadata c9StatFailEnv "a.mp3").success = false ∧
    (extract_file_metadata c9StatFailEnv "a.mp3").quality = some "Lossy" ∧
    (extract_file_metadata c9StatFailEnv "a.mp3").title = some "" ∧
    (extract_file_metadata c9StatFailEnv "a.mp3").contributing_artists = some "" ∧
    (extract_file_metadata c9StatFailEnv "a.mp3").duration_formatted = some "" ∧
    (extract_file_metadata c9StatFailEnv "a.mp3").error = none ∧
    (extract_file_metadata c9StatFailEnv "a.mp3").file_error = some "Permission denied" :=
  ⟨rfl, rfl, rfl, rfl, rfl, rfl, rfl⟩

/-- C9 (amended).  When path resolution fails, the returned record is
exactly the minimal failure record: path, filename, the error reason,
success false, and no other key.  When the file stat fails, the record
has success false, carries the reason under file_error (the error key
stays absent), holds no decoded tag value — the title and
contributing-artists fields keep their empty defaults and the
tag-decoding keys (album, year, genre, duration, bitrate) are absent —
and is thereby excluded from grouping. -/
theorem extract_metadata_failure_fields :
    (∀ (env : Env) (p e : String), env.resolveError p = some e →
      extract_file_metadata env p =
        { file_path := p, filename := some (pathName p),
          error := some e, success := false })
    ∧ (∀ (env : Env) (p e : String), env.resolveError p = none →
        env.statResult p = Except.error e →
        (extract_file_metadata env p).success = false ∧
        (extract_file_metadata env p).file_error = some e ∧
        (extract_file_metadata env p).error = none ∧
        (extract_file_metadata env p).title = some "" ∧
        (extract_file_metadata env p).contributing_artists = some "" ∧
        (extract_file_metadata env p).album = none ∧
        (extract_file_metadata env p).year = none ∧
        (extract_file_metadata env p).genre = none ∧
        (extract_file_metadata env p).duration = none ∧
        (extract_file_metadata env p).bitrate = none ∧
        fileInfoOf (extract_file_metadata env p) = none) := by
  constructor
  · intro env p e h
    simp [extract_file_metadata, h]
  · intro env p e hres hstat
    simp [extract_file_metadata, fileInfoOf, hres, hstat]

/-- Witness for C9 at the two concrete failing environments. -/
theorem extract_metadata_failure_fields_witness :
    extract_file_metadata c9ResolveFailEnv "f.mp3" =
      { file_path := "f.mp3", filename := some (pathName "f.mp3"),
        error := some "bad path", success := false } ∧
    (extract_file_metadata c9StatFailEnv "b.flac").success = false ∧
    (extract_file_metadata c9StatFailEnv "b.flac").file_error = some "Permission denied" :=
  ⟨extract_metadata_failure_fields.1 c9ResolveFailEnv "f.mp3" "bad path" rfl,
   (extract_metadata_failure_fields.2 c9StatFailEnv "b.flac" "Permission denied" rfl rfl).1,
   (extract_metadata_failure_fields.2 c9StatFailEnv "b.flac" "Permission denied" rfl rfl).2.1⟩
